import Mathlib

/-!
Verification development for `scripts/make_reports.py`, a one-shot static
HTML report generator.

The script is embedded shallowly:

* A filesystem snapshot is a `FS`: the list of directory paths, the list of
  regular-file paths, and the parsed CSV content of text files.  Paths are
  lists of segments relative to the project root (`Path(__file__).resolve().parents[1]`).
  The order of `dirs` / `files` models the (arbitrary) order in which the OS
  enumerates directory entries; the program sorts everything it uses.
* Python strings are Lean `String`s.  Python compares strings by code point;
  `charsLe` below is that order.  `pathlib` paths compare by their
  case-normalised path string (POSIX: the string itself), modelled by
  comparing `joinSlash` images of segment lists.
* `str.strip` / `str.lower` are modelled on ASCII whitespace / ASCII case;
  the program only ever compares the results against ASCII constants.
* `html.escape` performs five sequential `str.replace` calls whose
  replacement texts contain none of the characters replaced later (and the
  first replacement consumes every original `&`), so the chain equals the
  per-character expansion `escapeChar` used here.
* `urllib.parse.quote` is called with its default `safe='/'`: the string is
  UTF-8 encoded and every byte outside unreserved (`A-Z a-z 0-9 _ . - ~`)
  and `/` becomes `%XX` with uppercase hex.  `utf8Char` is the UTF-8
  encoding of one code point, on `Nat`s.
-/

set_option maxRecDepth 100000

namespace MkReports

abbrev Seg := String

abbrev FPath := List Seg

/-- Python code-point-lexicographic string order (`s <= t`), Bool-valued. -/
def charsLe : List Char → List Char → Bool
  | [], _ => true
  | _ :: _, [] => false
  | a :: as, b :: bs =>
    if a.toNat < b.toNat then true
    else if b.toNat < a.toNat then false
    else charsLe as bs

/-- Order on strings used by the Python builtins `sorted` / `list.sort`. -/
def strLe (s t : String) : Prop := charsLe s.data t.data = true

instance : DecidableRel strLe := fun s t =>
  inferInstanceAs (Decidable (charsLe s.data t.data = true))

/-- Join path segments with `/` (`PurePosixPath.__str__` / `as_posix`). -/
def joinSlash : List String → String
  | [] => ""
  | [s] => s
  | s :: rest => s ++ "/" ++ joinSlash rest

/-- Model of `pathlib` path comparison: by the (POSIX: identity-normalised) path string. -/
def pathLe (p q : FPath) : Prop := strLe (joinSlash p) (joinSlash q)

instance : DecidableRel pathLe := fun p q =>
  inferInstanceAs (Decidable (strLe (joinSlash p) (joinSlash q)))

/-- Sorting a list of paths, as `sorted(list_of_Path)` does. -/
def sortPaths (l : List FPath) : List FPath := List.insertionSort pathLe l

/-- Parsed content of a CSV text file, at the `csv.reader` row level. -/
structure Csv where
  header : List String
  rows : List (List String)
deriving DecidableEq

/-- A filesystem snapshot, relative to the project root. -/
structure FS where
  dirs : List FPath
  files : List FPath
  csvs : List (FPath × Csv)
deriving DecidableEq

/-- All directory entries, in OS enumeration order. -/
def FS.entries (fs : FS) : List FPath := fs.files ++ fs.dirs

/-- Model of `Path.is_file()`. -/
def FS.isFileB (fs : FS) (p : FPath) : Bool := fs.files.contains p

/-- Model of `Path.is_dir()`. -/
def FS.isDirB (fs : FS) (p : FPath) : Bool := fs.dirs.contains p

/-- Model of `Path.exists()`. -/
def FS.existsB (fs : FS) (p : FPath) : Bool := fs.isFileB p || fs.isDirB p

/-- Tests that `d` is a path-prefix of `p` (so `p` lies at or below `d`). -/
def leadsToB : FPath → FPath → Bool
  | [], _ => true
  | _ :: _, [] => false
  | a :: as, b :: bs => a == b && leadsToB as bs

/-- Model of `Path.iterdir()`: the direct children of `d` present in the snapshot. -/
def iterdir (fs : FS) (d : FPath) : List FPath :=
  fs.entries.filter (fun p => leadsToB d p && p.length == d.length + 1)

/-- Model of `root.rglob("*")`: every entry strictly below `root`, at any depth. -/
def rglob (fs : FS) (root : FPath) : List FPath :=
  fs.entries.filter (fun p => leadsToB root p && decide (root.length < p.length))

/-- Model of `Path.name`: the final path segment. -/
def pathName (p : FPath) : String := p.getLastD ("")

/-- Model of `PurePath.suffix` of a file name: from the last dot on, when that dot is
neither the first nor the last character; otherwise empty. -/
def pySuffix (name : String) : String :=
  let cs := name.data
  match ((cs.enum.filter (fun e => e.2 == '.')).map (fun e => e.1)).getLast? with
  | none => ""
  | some i => if 0 < i ∧ i < cs.length - 1 then String.mk (cs.drop i) else ("")

/-- Model of `str.lower` (ASCII case fold; the results are only compared against
ASCII constants). -/
def pyLower (s : String) : String := String.mk (s.data.map Char.toLower)

/-- The `str.strip()` whitespace set (ASCII part). -/
def isPyWs (c : Char) : Bool :=
  c == ' ' || c == '\t' || c == '\n' || c == '\r' || c == '\x0b' || c == '\x0c'

/-- Model of `str.strip()`. -/
def pyStrip (s : String) : String :=
  String.mk (((s.data.dropWhile isPyWs).reverse.dropWhile isPyWs).reverse)

/-- The set `IMG_EXTS` of recognised image extensions (membership only). -/
def IMG_EXTS : List String := [".png", ".jpg", ".jpeg", ".webp", ".gif"]

/-- Model of `list_images`: direct children that are regular files with a recognised
(lower-cased) extension, sorted. -/
def list_images (fs : FS) (folder : FPath) : List FPath :=
  sortPaths ((iterdir fs folder).filter
    (fun p => fs.isFileB p && IMG_EXTS.contains (pyLower (pySuffix (pathName p)))))

/-- A Python `dict[str, str]` as an ordered association list with unique keys:
assignment updates in place, otherwise appends. -/
def dictInsert (caps : List (String × String)) (k v : String) : List (String × String) :=
  if caps.any (fun e => e.1 == k) then
    caps.map (fun e => if e.1 == k then (k, v) else e)
  else caps ++ [(k, v)]

/-- Model of the dict lookup `d.get(k, dflt)`. -/
def dictGet (caps : List (String × String)) (k dflt : String) : String :=
  match caps.find? (fun e => e.1 == k) with
  | some e => e.2
  | none => dflt

/-- Model of the `csv.DictReader` field lookup: the value paired with the last occurrence
of `key` in the header row, `none` (the `restval`) when the data row is too
short or the column is absent. -/
def dictReaderGet (header row : List String) (key : String) : Option String :=
  match ((header.enum.filter (fun e => e.2 == key)).map (fun e => e.1)).getLast? with
  | none => none
  | some i => row.get? i

/-- One data row of `read_captions`: strip both fields (`or ""` turns a
missing field into the empty string), skip the row when the stripped
filename is empty, otherwise assign. -/
def readRow (header : List String) (caps : List (String × String)) (row : List String) :
    List (String × String) :=
  let fn := pyStrip ((dictReaderGet header row ("filename")).getD (""))
  let cap := pyStrip ((dictReaderGet header row ("caption")).getD (""))
  if fn ≠ "" then dictInsert caps fn cap else caps

/-- Model of `read_captions`: empty when `captions.csv` is absent, otherwise the fold
of `readRow` over the parsed rows.  (`csv.DictReader` skips blank rows; a
blank row would also be skipped by `readRow`, since both of its fields are
missing.) -/
def read_captions (fs : FS) (captions_csv : FPath) : List (String × String) :=
  match fs.csvs.find? (fun e => e.1 == captions_csv) with
  | none => []
  | some e => e.2.rows.foldl (readRow e.2.header) []

/-- UTF-8 encoding of one code point (`str.encode("utf-8")`, per character). -/
def utf8Char (c : Char) : List Nat :=
  let v := c.toNat
  if v < 0x80 then [v]
  else if v < 0x800 then [0xC0 + v / 0x40, 0x80 + v % 0x40]
  else if v < 0x10000 then
    [0xE0 + v / 0x1000, 0x80 + (v / 0x40) % 0x40, 0x80 + v % 0x40]
  else
    [0xF0 + v / 0x40000, 0x80 + (v / 0x1000) % 0x40, 0x80 + (v / 0x40) % 0x40, 0x80 + v % 0x40]

/-- UTF-8 bytes of a string. -/
def utf8Str (s : String) : List Nat := s.data.flatMap utf8Char

/-- Bytes `urllib.parse.quote` leaves intact: `always_safe` plus the default
`safe='/'`. -/
def isSafeByte (b : Nat) : Bool :=
  (65 ≤ b && b ≤ 90) || (97 ≤ b && b ≤ 122) || (48 ≤ b && b ≤ 57) ||
    b == 95 || b == 46 || b == 45 || b == 126 || b == 47

/-- Uppercase hex digit. -/
def hexDig (n : Nat) : Char :=
  if n < 10 then Char.ofNat (48 + n) else Char.ofNat (55 + n)

/-- The `quote` output for one byte: the byte itself when safe, else `%XX`. -/
def quoteByteChars (b : Nat) : List Char :=
  if isSafeByte b then [Char.ofNat b] else ['%', hexDig (b / 16), hexDig (b % 16)]

/-- Model of `urllib.parse.quote(s)` with its default safe set. -/
def quote (s : String) : String := String.mk ((utf8Str s).flatMap quoteByteChars)

/-- Model of `url_path(*parts)`: quote every part, join the results with a slash. -/
def url_path (parts : List String) : String := joinSlash (parts.map quote)

/-- The `html.escape` replacement (with quoting), expanded per character. -/
def escapeChar (c : Char) : List Char :=
  if c = '&' then ("&amp;".data)
  else if c = '<' then ("&lt;".data)
  else if c = '>' then ("&gt;".data)
  else if c = '"' then ("&quot;".data)
  else if c = Char.ofNat 39 then ("&#x27;".data)
  else [c]

/-- Model of `html.escape(s)`. -/
def htmlEscape (s : String) : String := String.mk (s.data.flatMap escapeChar)

/-- Model of `find_report_folders`: the sorted recursive listing of `outputs_dir`,
kept when the entry is a directory whose `list_images` is non-empty. -/
def find_report_folders (fs : FS) (outputs_dir : FPath) : List FPath :=
  (sortPaths (rglob fs outputs_dir)).filter
    (fun d => fs.isDirB d && !(list_images fs d).isEmpty)

/-- Concatenation, as `join` on the empty separator. -/
def concatAll : List String → String
  | [] => ""
  | s :: rest => s ++ concatAll rest

/-- Model of `str.split("/")`, on the character list. -/
def splitSlashAux : List Char → List (List Char)
  | [] => [[]]
  | c :: cs =>
    match splitSlashAux cs with
    | [] => [[]]
    | h :: t => if c = '/' then [] :: h :: t else (c :: h) :: t

/-- Model of `str.split("/")`. -/
def splitSlash (s : String) : List String := (splitSlashAux s.data).map String.mk

/- The literal fragments of the card f-string in `build_report`, after its
trailing `.strip()` (the template starts and ends with literal text, so the
strip only removes the fixed leading and trailing whitespace). -/

def cardT1 : String := "<figure class=\"card\">\n              <a href=\""

def cardT2 : String := "\" target=\"_blank\" rel=\"noopener\">\n                <img src=\""

def cardT3 : String := "\" alt=\""

def cardT4 : String := "\">\n              </a>\n              <figcaption>"

def cardT5 : String := "</figcaption>\n            </figure>"

/-- One card of the report page (`cards.append(...)` body). -/
def card_html (name cap : String) : String :=
  cardT1 ++ url_path [name] ++ cardT2 ++ url_path [name] ++ cardT3 ++
    htmlEscape name ++ cardT4 ++ htmlEscape cap ++ cardT5

/-- The path `folder / "captions.csv"`. -/
def captionsPath (folder : FPath) : FPath := folder ++ [("captions.csv" : String)]

/-- The card list of `build_report`: one card per image in `list_images`
order, caption looked up by exact file name with default `""`. -/
def report_cards (fs : FS) (folder : FPath) : List String :=
  let caps := read_captions fs (captionsPath folder)
  (list_images fs folder).map
    (fun img => card_html (pathName img) (dictGet caps (pathName img) ("")))

/- The literal fragments of the page f-string in `build_report` (literal
braces written `\x7b`/`\x7d`). -/

def pageT1 : String :=
  "<!doctype html>\n<html lang=\"fa\" dir=\"rtl\">\n<head>\n  <meta charset=\"utf-8\" />\n  <meta name=\"viewport\" content=\"width=device-width,initial-scale=1\" />\n  <title>Report - "

def pageT2 : String :=
  "</title>\n  <style>\n    body \x7b font-family: sans-serif; margin: 24px; line-height: 1.8; \x7d\n    header \x7b margin-bottom: 16px; \x7d\n    .muted \x7b color: #666; font-size: 0.95rem; \x7d\n    .grid \x7b\n      display: grid;\n      grid-template-columns: repeat(auto-fit, minmax(240px, 1fr));\n      gap: 16px;\n    \x7d\n    .card \x7b\n      border: 1px solid #ddd;\n      border-radius: 12px;\n      padding: 12px;\n      background: #fff;\n    \x7d\n    img \x7b width: 100%; height: auto; border-radius: 10px; \x7d\n    figcaption \x7b margin-top: 10px; color: #333; font-size: 0.95rem; min-height: 1.2em; \x7d\n  </style>\n</head>\n<body>\n  <header>\n    <h1>گزارش: "

def pageT3 : String := "</h1>\n    <p class=\"muted\">تعداد تصاویر: "

def pageT4 : String := "</p>\n  </header>\n\n  <main class=\"grid\">\n    "

def pageT5 : String := "\n  </main>\n</body>\n</html>\n"

/-- The full report page document (`page = f"""..."""`). -/
def report_page_html (title : String) (count : Nat) (cards : List String) : String :=
  pageT1 ++ htmlEscape title ++ pageT2 ++ htmlEscape title ++ pageT3 ++
    Nat.repr count ++ pageT4 ++ concatAll cards ++ pageT5

/-- Model of `build_report`: `none` (nothing written) when the folder has no images,
otherwise the document written to `folder/report.html`. -/
def build_report (fs : FS) (folder : FPath) : Option String :=
  if (list_images fs folder).isEmpty then none
  else
    some (report_page_html (pathName folder) (list_images fs folder).length
      (report_cards fs folder))

/-- Model of `p.relative_to(outputs_dir).as_posix()` for `p` below `outputs_dir`. -/
def rel_from_outputs (outputs_dir p : FPath) : String := joinSlash (p.drop outputs_dir.length)

/-- One `(rel, report_rel, img_count)` triple of `build_index_pages`. -/
def index_item (fs : FS) (outputs_dir folder : FPath) : String × String × Nat :=
  let rel := rel_from_outputs outputs_dir folder
  (rel, rel ++ "/report.html", (list_images fs folder).length)

/-- The sort key comparison of `items.sort(key=lambda x: x[0].lower())`. -/
def itemLe (a b : String × String × Nat) : Prop := strLe (pyLower a.1) (pyLower b.1)

instance : DecidableRel itemLe := fun a b =>
  inferInstanceAs (Decidable (strLe (pyLower a.1) (pyLower b.1)))

/-- Model of `items.sort(key=lambda x: x[0].lower())` (a stable sort, as in Python). -/
def sortItems (items : List (String × String × Nat)) : List (String × String × Nat) :=
  List.insertionSort itemLe items

/-- One `<li>` of an index page. -/
def index_li (pfx : String) (it : String × String × Nat) : String :=
  "<li><a href=\"" ++ url_path (pfx :: splitSlash it.2.1) ++ "\">" ++ htmlEscape it.1 ++
    "</a> <span class=\"muted\">(" ++ Nat.repr it.2.2 ++ " تصویر)</span></li>"

/- The literal fragments of the index page f-string in `make_html`. -/

def idxT1 : String :=
  "<!doctype html>\n<html lang=\"fa\" dir=\"rtl\">\n<head>\n  <meta charset=\"utf-8\" />\n  <meta name=\"viewport\" content=\"width=device-width,initial-scale=1\" />\n  <title>فهرست گزارش‌ها</title>\n  <style>\n    body \x7b font-family: sans-serif; margin: 24px; line-height: 1.8; \x7d\n    .muted \x7b color: #666; font-size: 0.95rem; \x7d\n    ul \x7b padding-right: 18px; \x7d\n    li \x7b margin: 8px 0; \x7d\n  </style>\n</head>\n<body>\n  <h1>فهرست گزارش‌ها</h1>\n  <p class=\"muted\">روی هر مورد کلیک کن تا گزارش همان فولدر باز شود.</p>\n  <ul>\n    "

def idxT2 : String := "\n  </ul>\n</body>\n</html>\n"

/-- The placeholder rendered when no report folder exists. -/
def noReportsLi : String := "<li>گزارشی پیدا نشد.</li>"

/-- The index page document around the `<ul>` content. -/
def index_page_html (ul : String) : String := idxT1 ++ ul ++ idxT2

/-- Model of `make_html(prefix_to_outputs)` in `build_index_pages`, as a function of
the sorted items. -/
def make_html (items : List (String × String × Nat)) (pfx : String) : String :=
  let lis := items.map (index_li pfx)
  index_page_html (if lis.isEmpty then noReportsLi else concatAll lis)

/-- The outputs directory relative to the project root. -/
def outputsPath : FPath := [("outputs" : String)]

/-- Model of `build_index_pages`: the two documents written to `site/index.html`
(prefix `../outputs`) and `index.html` (prefix `outputs`). -/
def build_index_pages (fs : FS) (report_folders : List FPath) : String × String :=
  let items := sortItems (report_folders.map (index_item fs outputsPath))
  (make_html items ("../outputs"), make_html items ("outputs"))

/-- Everything one run writes: the per-folder reports, then the two index
pages. -/
structure RunResult where
  reports : List (FPath × String)
  siteIndex : String
  rootIndex : String
deriving DecidableEq

/-- The write phase of `main` once `outputs` exists: reports for every
discovered folder (in order), then both index pages. -/
def pipeline (fs : FS) : RunResult :=
  let report_folders := find_report_folders fs outputsPath
  { reports := report_folders.filterMap
      (fun f => (build_report fs f).map (fun page => (f ++ [("report.html" : String)], page)))
    siteIndex := (build_index_pages fs report_folders).1
    rootIndex := (build_index_pages fs report_folders).2 }

/-- Model of `main`: abort with the error message when `outputs` does not exist,
otherwise run discovery, all report builds, and both index writes. -/
def main (fs : FS) : Except String RunResult :=
  if fs.existsB outputsPath then Except.ok (pipeline fs)
  else Except.error ("❌ outputs/ پیدا نشد")

/-- The filesystem after a successful run: the `site` directory is created
if missing and the written files are added (overwrites change no paths). -/
def applyRun (fs : FS) : FS :=
  match main fs with
  | Except.error _ => fs
  | Except.ok r =>
    { dirs := fs.dirs ++
        (if fs.dirs.contains ([("site" : String)] : FPath) then [] else [[("site" : String)]])
      files := fs.files ++
        ((r.reports.map (fun e => e.1) ++
          [[("site" : String), ("index.html" : String)], [("index.html" : String)]]).filter
            (fun p => !fs.files.contains p))
      csvs := fs.csvs }

/-- Segments that a real filesystem can produce: non-empty and free of the
path separator. -/
def SegsOk (p : FPath) : Prop := ∀ s ∈ p, s ≠ "" ∧ '/' ∉ s.data

/-- Well-formedness of a snapshot: every entry has real segments, and no
path is both a regular file and a directory. -/
def FS.WF (fs : FS) : Prop :=
  (∀ p ∈ fs.entries, SegsOk p) ∧ (∀ p ∈ fs.files, p ∉ fs.dirs)

/-- The paths a run writes do not already exist with the wrong kind (a real
run would crash rather than write there). -/
def WritesFresh (fs : FS) : Prop :=
  (∀ f ∈ find_report_folders fs outputsPath, (f ++ [("report.html" : String)]) ∉ fs.dirs) ∧
    ([("site" : String)] : FPath) ∉ fs.files ∧
    ([("site" : String), ("index.html" : String)] : FPath) ∉ fs.dirs ∧
    ([("index.html" : String)] : FPath) ∉ fs.dirs

/-- Holds when `pat` occurs as a contiguous substring of `s`. -/
def occursIn (pat s : List Char) : Prop := ∃ a b, s = a ++ pat ++ b

/-- States of a scanner that looks for the character sequence `<sc`. -/
inductive ScanSt
  | s0
  | s1
  | s2
  | s3
deriving DecidableEq

/-- One scanner step: `s1` after `<`, `s2` after `<s`, absorbing `s3` after
`<sc`. -/
def scanStep : ScanSt → Char → ScanSt
  | .s0, c => if c = '<' then .s1 else .s0
  | .s1, c => if c = '<' then .s1 else if c = 's' then .s2 else .s0
  | .s2, c => if c = '<' then .s1 else if c = 'c' then .s3 else .s0
  | .s3, _ => .s3

/-- Run the scanner over a character list. -/
def scan (st : ScanSt) (l : List Char) : ScanSt := l.foldl scanStep st

/- Concrete snapshots used as witnesses and counterexamples. -/

/-- A project root without an `outputs` directory. -/
def fsAbsent : FS := { dirs := [], files := [], csvs := [] }

/-- An `outputs` directory holding images directly (and nothing else). -/
def fsRootImg : FS :=
  { dirs := [[("outputs" : String)]]
    files := [[("outputs" : String), ("a.png" : String)]]
    csvs := [] }

/-- A small project: a `Gallery` folder with two images and a captions file
(one caption holding a script tag, one blank-filename row, one short row),
an imageless folder `X`, and an image-bearing subfolder `X/exp1`. -/
def fsDemo : FS :=
  { dirs := [[("outputs" : String)], [("outputs" : String), ("Gallery" : String)],
      [("outputs" : String), ("X" : String)],
      [("outputs" : String), ("X" : String), ("exp1" : String)]]
    files := [[("outputs" : String), ("Gallery" : String), ("b.jpg" : String)],
      [("outputs" : String), ("Gallery" : String), ("a.PNG" : String)],
      [("outputs" : String), ("Gallery" : String), ("captions.csv" : String)],
      [("outputs" : String), ("X" : String), ("exp1" : String), ("img.png" : String)]]
    csvs := [([("outputs" : String), ("Gallery" : String), ("captions.csv" : String)],
      { header := [("filename" : String), ("caption" : String)]
        rows := [[("a.PNG" : String), ("<script>alert(1)</script>" : String)],
          [(" " : String), ("x" : String)], [("b.jpg" : String)]] })] }

/-- The snapshot `fsDemo` as another OS might enumerate it: same entries, shuffled. -/
def fsDemoShuffled : FS :=
  { dirs := [[("outputs" : String), ("X" : String), ("exp1" : String)],
      [("outputs" : String), ("Gallery" : String)], [("outputs" : String)],
      [("outputs" : String), ("X" : String)]]
    files := [[("outputs" : String), ("X" : String), ("exp1" : String), ("img.png" : String)],
      [("outputs" : String), ("Gallery" : String), ("captions.csv" : String)],
      [("outputs" : String), ("Gallery" : String), ("a.PNG" : String)],
      [("outputs" : String), ("Gallery" : String), ("b.jpg" : String)]]
    csvs := [([("outputs" : String), ("Gallery" : String), ("captions.csv" : String)],
      { header := [("filename" : String), ("caption" : String)]
        rows := [[("a.PNG" : String), ("<script>alert(1)</script>" : String)],
          [(" " : String), ("x" : String)], [("b.jpg" : String)]] })] }

/-- The `Gallery` folder of `fsDemo`. -/
def galleryPath : FPath := [("outputs" : String), ("Gallery" : String)]

/-- The imageless folder `X` of `fsDemo`. -/
def xPath : FPath := [("outputs" : String), ("X" : String)]

end MkReports

/-! ## Basic facts about the Python string order -/

namespace MkReports

theorem char_toNat_inj {a b : Char} (h : a.toNat = b.toNat) : a = b :=
  Char.eq_of_val_eq (UInt32.eq_of_toBitVec_eq (BitVec.eq_of_toNat_eq h))

theorem str_data_inj {s t : String} (h : s.data = t.data) : s = t := by
  cases s
  cases t
  exact congrArg String.mk h

theorem charsLe_refl (x : List Char) : charsLe x x = true := by
  induction x with
  | nil => rfl
  | cons a as ih => simp [charsLe, ih]

theorem charsLe_total (x y : List Char) : charsLe x y = true ∨ charsLe y x = true := by
  induction x generalizing y with
  | nil => left; rfl
  | cons a as ih =>
    cases y with
    | nil => right; rfl
    | cons b bs =>
      by_cases h1 : a.toNat < b.toNat
      · left; simp [charsLe, h1]
      · by_cases h2 : b.toNat < a.toNat
        · right; simp [charsLe, h1, h2]
        · have := ih bs
          simp [charsLe, h1, h2, this]

theorem charsLe_trans {x y z : List Char} (h1 : charsLe x y = true)
    (h2 : charsLe y z = true) : charsLe x z = true := by
  induction x generalizing y z with
  | nil => rfl
  | cons a as ih =>
    cases y with
    | nil => simp [charsLe] at h1
    | cons b bs =>
      cases z with
      | nil => simp [charsLe] at h2
      | cons c cs =>
        simp only [charsLe] at h1 h2 ⊢
        split_ifs at h1 h2 ⊢ <;>
          first
          | rfl
          | omega
          | (exact absurd h1 Bool.false_ne_true)
          | (exact absurd h2 Bool.false_ne_true)
          | (exact ih h1 h2)

theorem charsLe_antisymm {x y : List Char} (h1 : charsLe x y = true)
    (h2 : charsLe y x = true) : x = y := by
  induction x generalizing y with
  | nil =>
    cases y with
    | nil => rfl
    | cons b bs => simp [charsLe] at h2
  | cons a as ih =>
    cases y with
    | nil => simp [charsLe] at h1
    | cons b bs =>
      simp only [charsLe] at h1 h2
      split_ifs at h1 h2 with hab hba
      all_goals
        first
        | omega
        | (exact absurd h1 Bool.false_ne_true)
        | (exact absurd h2 Bool.false_ne_true)
        | (have hEq : a = b := char_toNat_inj (by omega)
           subst hEq
           exact congrArg (a :: ·) (ih h1 h2))

theorem charsLe_append_left (p a b : List Char) :
    charsLe (p ++ a) (p ++ b) = charsLe a b := by
  induction p with
  | nil => rfl
  | cons c cs ih => simp [charsLe, ih]

theorem strLe_total (s t : String) : strLe s t ∨ strLe t s := charsLe_total s.data t.data

theorem strLe_trans {s t u : String} (h1 : strLe s t) (h2 : strLe t u) : strLe s u :=
  charsLe_trans h1 h2

theorem strLe_antisymm {s t : String} (h1 : strLe s t) (h2 : strLe t s) : s = t :=
  str_data_inj (charsLe_antisymm h1 h2)

theorem pathLe_total (p q : FPath) : pathLe p q ∨ pathLe q p := strLe_total _ _

theorem pathLe_trans {p q r : FPath} (h1 : pathLe p q) (h2 : pathLe q r) : pathLe p r :=
  strLe_trans h1 h2

end MkReports

/-! ## Paths: joining is injective on real segments; sorting facts -/

namespace MkReports

theorem joinSlash_data_cons (s : String) (r : String) (rest : List String) :
    (joinSlash (s :: r :: rest)).data = s.data ++ '/' :: (joinSlash (r :: rest)).data := by
  show (s ++ "/" ++ joinSlash (r :: rest)).data = _
  simp [String.data_append]

theorem sep_split {a b x y : List Char} (ha : '/' ∉ a) (hb : '/' ∉ b)
    (h : a ++ '/' :: x = b ++ '/' :: y) : a = b ∧ x = y := by
  induction a generalizing b with
  | nil =>
    cases b with
    | nil => simpa using h
    | cons c cb =>
      simp only [List.nil_append, List.cons_append, List.cons.injEq] at h
      exact absurd (h.1 ▸ List.mem_cons_self c cb) hb
  | cons c ca ih =>
    cases b with
    | nil =>
      simp only [List.nil_append, List.cons_append, List.cons.injEq] at h
      exact absurd (h.1.symm ▸ List.mem_cons_self c ca) ha
    | cons d db =>
      simp only [List.cons_append, List.cons.injEq] at h
      obtain ⟨rfl, h2⟩ := h
      have := ih (fun hm => ha (List.mem_cons_of_mem c hm))
        (fun hm => hb (List.mem_cons_of_mem c hm)) h2
      exact ⟨by rw [this.1], this.2⟩

theorem joinSlash_inj : ∀ {p q : FPath}, SegsOk p → SegsOk q →
    joinSlash p = joinSlash q → p = q := by
  intro p
  induction p with
  | nil =>
    intro q _ hq h
    cases q with
    | nil => rfl
    | cons t ts =>
      cases ts with
      | nil =>
        exact absurd h.symm (hq t (List.mem_cons_self t [])).1
      | cons r rs =>
        have := congrArg String.data h
        rw [joinSlash_data_cons] at this
        exact absurd this.symm (by simp [joinSlash])
  | cons s ss ih =>
    intro q hp hq h
    cases q with
    | nil =>
      cases ss with
      | nil =>
        exact absurd h (hp s (List.mem_cons_self s [])).1
      | cons r rs =>
        have := congrArg String.data h
        rw [joinSlash_data_cons] at this
        exact absurd this (by simp [joinSlash])
    | cons t ts =>
      cases ss with
      | nil =>
        cases ts with
        | nil => rw [show s = t from h]
        | cons r rs =>
          have hd := congrArg String.data h
          rw [joinSlash_data_cons] at hd
          have : '/' ∈ s.data := by
            rw [show (joinSlash [s]).data = s.data from rfl] at hd
            rw [hd]
            exact List.mem_append_right _ (List.mem_cons_self _ _)
          exact absurd this (hp s (List.mem_cons_self s [])).2
      | cons u us =>
        cases ts with
        | nil =>
          have hd := congrArg String.data h
          rw [joinSlash_data_cons] at hd
          have : '/' ∈ t.data := by
            rw [show (joinSlash [t]).data = t.data from rfl] at hd
            rw [← hd]
            exact List.mem_append_right _ (List.mem_cons_self _ _)
          exact absurd this (hq t (List.mem_cons_self t [])).2
        | cons r rs =>
          have hd := congrArg String.data h
          rw [joinSlash_data_cons, joinSlash_data_cons] at hd
          have hsp := sep_split (hp s (List.mem_cons_self s _)).2
            (hq t (List.mem_cons_self t _)).2 hd
          have h1 : s = t := str_data_inj hsp.1
          have h2 : (u :: us) = (r :: rs) :=
            ih (fun x hx => hp x (List.mem_cons_of_mem s hx))
              (fun x hx => hq x (List.mem_cons_of_mem t hx)) (str_data_inj hsp.2)
          rw [h1, h2]

theorem pathLe_antisymm {p q : FPath} (hp : SegsOk p) (hq : SegsOk q)
    (h1 : pathLe p q) (h2 : pathLe q p) : p = q :=
  joinSlash_inj hp hq (strLe_antisymm h1 h2)

/-- Two sorted permutations of the same list are equal, given antisymmetry
on the elements involved. -/
theorem pairwise_perm_eq {α : Type} (r : α → α → Prop) :
    ∀ (l₁ l₂ : List α), l₁.Perm l₂ →
      (∀ a ∈ l₁, ∀ b ∈ l₁, r a b → r b a → a = b) →
      l₁.Pairwise r → l₂.Pairwise r → l₁ = l₂ := by
  intro l₁
  induction l₁ with
  | nil =>
    intro l₂ hp _ _ _
    exact hp.nil_eq
  | cons a t ih =>
    intro l₂ hp hanti h1 h2
    cases l₂ with
    | nil =>
      have := hp.length_eq
      simp at this
    | cons b u =>
      have hab : a = b := by
        have ha2 : a ∈ b :: u := hp.mem_iff.mp (List.mem_cons_self a t)
        have hb1 : b ∈ a :: t := hp.mem_iff.mpr (List.mem_cons_self b u)
        rcases List.mem_cons.mp ha2 with h | hau
        · exact h
        · rcases List.mem_cons.mp hb1 with h | hbt
          · exact h.symm
          · have hrab : r a b := (List.pairwise_cons.mp h1).1 b hbt
            have hrba : r b a := (List.pairwise_cons.mp h2).1 a hau
            exact hanti a (List.mem_cons_self a t) b (List.mem_cons_of_mem a hbt) hrab hrba
      subst hab
      have htu : t = u :=
        ih u hp.cons_inv
          (fun x hx y hy => hanti x (List.mem_cons_of_mem a hx) y (List.mem_cons_of_mem a hy))
          (List.pairwise_cons.mp h1).2 (List.pairwise_cons.mp h2).2
      rw [htu]

theorem sortPaths_perm (l : List FPath) : (sortPaths l).Perm l :=
  List.perm_insertionSort pathLe l

theorem mem_sortPaths {l : List FPath} {p : FPath} : p ∈ sortPaths l ↔ p ∈ l :=
  (sortPaths_perm l).mem_iff

theorem sortPaths_pairwise (l : List FPath) : (sortPaths l).Pairwise pathLe := by
  haveI : IsTotal FPath pathLe := ⟨pathLe_total⟩
  haveI : IsTrans FPath pathLe := ⟨fun _ _ _ => pathLe_trans⟩
  exact List.sorted_insertionSort pathLe l

theorem sortPaths_eq_of_perm {l₁ l₂ : List FPath} (h : l₁.Perm l₂)
    (hseg : ∀ p ∈ l₁, SegsOk p) : sortPaths l₁ = sortPaths l₂ := by
  apply pairwise_perm_eq pathLe
  · exact ((sortPaths_perm l₁).trans h).trans (sortPaths_perm l₂).symm
  · intro a ha b hb
    exact pathLe_antisymm (hseg a (mem_sortPaths.mp ha)) (hseg b (mem_sortPaths.mp hb))
  · exact sortPaths_pairwise l₁
  · exact sortPaths_pairwise l₂

theorem filter_sortPaths (q : FPath → Bool) (l : List FPath)
    (hseg : ∀ p ∈ l, SegsOk p) :
    (sortPaths l).filter q = sortPaths (l.filter q) := by
  apply pairwise_perm_eq pathLe
  · exact ((sortPaths_perm l).filter q).trans (sortPaths_perm (l.filter q)).symm
  · intro a ha b hb
    have ha' : a ∈ l := mem_sortPaths.mp (List.mem_of_mem_filter ha)
    have hb' : b ∈ l := mem_sortPaths.mp (List.mem_of_mem_filter hb)
    exact pathLe_antisymm (hseg a ha') (hseg b hb')
  · exact List.Pairwise.filter q (sortPaths_pairwise l)
  · exact sortPaths_pairwise (l.filter q)

end MkReports

/-! ## Membership characterisations of the directory operations -/

namespace MkReports

theorem contains_iff {α : Type} [BEq α] [LawfulBEq α] (l : List α) (a : α) :
    l.contains a = true ↔ a ∈ l := by
  simp

theorem leadsToB_iff : ∀ (d p : FPath), leadsToB d p = true ↔ ∃ t, p = d ++ t := by
  intro d
  induction d with
  | nil =>
    intro p
    simp [leadsToB]
  | cons a as ih =>
    intro p
    cases p with
    | nil =>
      simp only [leadsToB]
      constructor
      · intro h
        exact absurd h (by simp)
      · rintro ⟨t, ht⟩
        exact absurd ht (by simp)
    | cons b bs =>
      simp only [leadsToB, Bool.and_eq_true, beq_iff_eq, ih bs]
      constructor
      · rintro ⟨rfl, t, rfl⟩
        exact ⟨t, rfl⟩
      · rintro ⟨t, ht⟩
        simp only [List.cons_append, List.cons.injEq] at ht
        exact ⟨ht.1.symm, t, ht.2⟩

theorem child_iff (d p : FPath) :
    (leadsToB d p && p.length == d.length + 1) = true ↔ ∃ s, p = d ++ [s] := by
  simp only [Bool.and_eq_true, beq_iff_eq, leadsToB_iff]
  constructor
  · rintro ⟨⟨t, rfl⟩, hl⟩
    simp only [List.length_append] at hl
    have : t.length = 1 := by omega
    rw [List.length_eq_one] at this
    obtain ⟨s, rfl⟩ := this
    exact ⟨s, rfl⟩
  · rintro ⟨s, rfl⟩
    exact ⟨⟨[s], rfl⟩, by simp⟩

theorem mem_iterdir {fs : FS} {d p : FPath} :
    p ∈ iterdir fs d ↔ p ∈ fs.entries ∧ ∃ s, p = d ++ [s] := by
  unfold iterdir
  rw [List.mem_filter, child_iff]

theorem mem_rglob {fs : FS} {root p : FPath} :
    p ∈ rglob fs root ↔ p ∈ fs.entries ∧ ∃ t, t ≠ [] ∧ p = root ++ t := by
  unfold rglob
  rw [List.mem_filter]
  simp only [Bool.and_eq_true, decide_eq_true_eq, leadsToB_iff]
  constructor
  · rintro ⟨hm, ⟨t, rfl⟩, hl⟩
    refine ⟨hm, t, ?_, rfl⟩
    intro ht
    subst ht
    simp at hl
  · rintro ⟨hm, t, ht, rfl⟩
    refine ⟨hm, ⟨t, rfl⟩, ?_⟩
    have : t.length ≠ 0 := fun h => ht (List.length_eq_zero.mp h)
    simp only [List.length_append]
    omega

theorem mem_entries_file {fs : FS} {p : FPath} (hm : p ∈ fs.entries)
    (hf : fs.isFileB p = true) : p ∈ fs.files :=
  (contains_iff _ _).mp hf

theorem mem_list_images {fs : FS} {d p : FPath} :
    p ∈ list_images fs d ↔
      p ∈ fs.files ∧ (∃ s, p = d ++ [s]) ∧
        IMG_EXTS.contains (pyLower (pySuffix (pathName p))) = true := by
  unfold list_images
  rw [mem_sortPaths, List.mem_filter]
  simp only [Bool.and_eq_true, mem_iterdir]
  constructor
  · rintro ⟨⟨hm, hs⟩, hf, he⟩
    exact ⟨(contains_iff _ _).mp hf, hs, he⟩
  · rintro ⟨hf, hs, he⟩
    exact ⟨⟨List.mem_append_left _ hf, hs⟩, (contains_iff _ _).mpr hf, he⟩

theorem mem_find_report_folders {fs : FS} {out d : FPath} :
    d ∈ find_report_folders fs out ↔
      d ∈ fs.dirs ∧ (∃ t, t ≠ [] ∧ d = out ++ t) ∧ list_images fs d ≠ [] := by
  unfold find_report_folders
  rw [List.mem_filter, mem_sortPaths, mem_rglob]
  simp only [Bool.and_eq_true, Bool.not_eq_true']
  constructor
  · rintro ⟨⟨_, hs⟩, hd, he⟩
    refine ⟨(contains_iff _ _).mp hd, hs, ?_⟩
    intro h0
    rw [h0] at he
    simp at he
  · rintro ⟨hd, hs, he⟩
    refine ⟨⟨List.mem_append_right _ hd, hs⟩, (contains_iff _ _).mpr hd, ?_⟩
    simpa [List.isEmpty_iff] using he

end MkReports

/-! ## Children of one directory sort by file name -/

namespace MkReports

theorem pathName_append_singleton (d : FPath) (s : Seg) : pathName (d ++ [s]) = s := by
  unfold pathName
  simp [List.getLastD_concat]

theorem charsLe_join_children : ∀ (d : FPath) (a b : Seg),
    charsLe (joinSlash (d ++ [a])).data (joinSlash (d ++ [b])).data =
      charsLe a.data b.data := by
  intro d
  induction d with
  | nil => intro a b; rfl
  | cons x xs ih =>
    intro a b
    cases xs with
    | nil =>
      show charsLe (joinSlash [x, a]).data (joinSlash [x, b]).data = _
      rw [joinSlash_data_cons, joinSlash_data_cons]
      have ha : x.data ++ '/' :: (joinSlash [a]).data = (x.data ++ ['/']) ++ a.data := by
        simp [joinSlash]
      have hb : x.data ++ '/' :: (joinSlash [b]).data = (x.data ++ ['/']) ++ b.data := by
        simp [joinSlash]
      rw [ha, hb, charsLe_append_left]
    | cons y ys =>
      show charsLe (joinSlash (x :: (y :: ys ++ [a]))).data
          (joinSlash (x :: (y :: ys ++ [b]))).data = _
      rw [show (y :: ys ++ [a] : List String) = y :: (ys ++ [a]) from rfl,
        show (y :: ys ++ [b] : List String) = y :: (ys ++ [b]) from rfl]
      cases hys : ys ++ [a] with
      | nil => exact absurd hys (by simp)
      | cons z zs =>
        cases hys2 : ys ++ [b] with
        | nil => exact absurd hys2 (by simp)
        | cons w ws =>
          rw [← hys, ← hys2, joinSlash_data_cons, joinSlash_data_cons]
          have ha : x.data ++ '/' :: (joinSlash (y :: (ys ++ [a]))).data =
              (x.data ++ ['/']) ++ (joinSlash (y :: ys ++ [a])).data := by simp
          have hb : x.data ++ '/' :: (joinSlash (y :: (ys ++ [b]))).data =
              (x.data ++ ['/']) ++ (joinSlash (y :: ys ++ [b])).data := by simp
          rw [ha, hb, charsLe_append_left]
          exact ih a b

theorem pathLe_children {d : FPath} {a b : Seg}
    (h : pathLe (d ++ [a]) (d ++ [b])) : strLe a b := by
  unfold pathLe strLe at h
  rwa [charsLe_join_children] at h

end MkReports

/-! ## C1, C4, C5, C10 -/

namespace MkReports

/-- C1 (counterexample): with an image directly inside the outputs root and
nothing else, the root itself qualifies by the "has direct images" test but
`find_report_folders` does not return it — `rglob("*")` never yields the
root directory itself, contradicting the claimed "including the root
directory itself". -/
theorem c1_counterexample :
    list_images fsRootImg outputsPath ≠ [] ∧
      outputsPath ∉ find_report_folders fsRootImg outputsPath := by decide

/-- C1 (amended): `find_report_folders` returns exactly the directories
strictly below the outputs root (the root itself excluded) whose direct
children include at least one image file, in lexicographic path order. -/
theorem c1_find_report_folders (fs : FS) (out : FPath) :
    (∀ d, d ∈ find_report_folders fs out ↔
        d ∈ fs.dirs ∧ (∃ t, t ≠ [] ∧ d = out ++ t) ∧ list_images fs d ≠ [])
  ∧ (find_report_folders fs out).Pairwise pathLe := by
  constructor
  · intro d
    exact mem_find_report_folders
  · exact List.Pairwise.filter _ (sortPaths_pairwise _)

/-- C4: a folder whose `list_images` is empty gets no report written and is
absent from `find_report_folders`, hence from every index page. -/
theorem c4_no_images_no_report (fs : FS) (folder : FPath)
    (h : list_images fs folder = []) :
    build_report fs folder = none ∧ folder ∉ find_report_folders fs outputsPath := by
  constructor
  · unfold build_report
    simp [h]
  · intro hmem
    exact (mem_find_report_folders.mp hmem).2.2 h

theorem c4_witness :
    list_images fsDemo xPath = [] ∧
      (build_report fsDemo xPath = none ∧
        xPath ∉ find_report_folders fsDemo outputsPath) :=
  ⟨by decide, c4_no_images_no_report fsDemo xPath (by decide)⟩

/-- C5: for an existing directory, `list_images` holds exactly the direct
children that are regular files with a recognised lower-cased extension
(never an error, hence empty when nothing matches, and never recursive —
every member is `d ++ [s]`), pairwise sorted ascending by file name. -/
theorem c5_list_images (fs : FS) (d : FPath) (hd : d ∈ fs.dirs) :
    (∀ p, p ∈ list_images fs d ↔
        p ∈ fs.files ∧ (∃ s, p = d ++ [s]) ∧
          IMG_EXTS.contains (pyLower (pySuffix (pathName p))) = true)
  ∧ (list_images fs d).Pairwise (fun p q => strLe (pathName p) (pathName q)) := by
  refine ⟨fun p => mem_list_images, ?_⟩
  have hpw : (list_images fs d).Pairwise pathLe := by
    unfold list_images
    exact sortPaths_pairwise _
  refine hpw.imp_of_mem ?_
  intro p q hp hq hle
  obtain ⟨sp, rfl⟩ := (mem_list_images.mp hp).2.1
  obtain ⟨sq, rfl⟩ := (mem_list_images.mp hq).2.1
  rw [pathName_append_singleton, pathName_append_singleton]
  exact pathLe_children hle

theorem c5_witness :
    galleryPath ∈ fsDemo.dirs ∧
      ((∀ p, p ∈ list_images fsDemo galleryPath ↔
          p ∈ fsDemo.files ∧ (∃ s, p = galleryPath ++ [s]) ∧
            IMG_EXTS.contains (pyLower (pySuffix (pathName p))) = true)
        ∧ (list_images fsDemo galleryPath).Pairwise
            (fun p q => strLe (pathName p) (pathName q))) :=
  ⟨by decide, c5_list_images fsDemo galleryPath (by decide)⟩

/-- C10: for a discovered folder, the index entry count, the count shown in
the report header, and the number of cards all equal the length of
`list_images` of that folder. -/
theorem c10_counts_agree (fs : FS) (folder : FPath)
    (h : folder ∈ find_report_folders fs outputsPath) :
    (report_cards fs folder).length = (list_images fs folder).length
  ∧ (index_item fs outputsPath folder).2.2 = (list_images fs folder).length
  ∧ build_report fs folder =
      some (report_page_html (pathName folder) ((list_images fs folder).length)
        (report_cards fs folder)) := by
  have hne : ¬(list_images fs folder).isEmpty = true := by
    have := (mem_find_report_folders.mp h).2.2
    simpa [List.isEmpty_iff] using this
  refine ⟨?_, rfl, ?_⟩
  · unfold report_cards
    simp
  · unfold build_report
    simp [hne]

theorem c10_witness :
    galleryPath ∈ find_report_folders fsDemo outputsPath ∧
      ((report_cards fsDemo galleryPath).length =
          (list_images fsDemo galleryPath).length
        ∧ (index_item fsDemo outputsPath galleryPath).2.2 =
            (list_images fsDemo galleryPath).length
        ∧ build_report fsDemo galleryPath =
            some (report_page_html (pathName galleryPath)
              ((list_images fsDemo galleryPath).length)
              (report_cards fsDemo galleryPath))) :=
  ⟨by decide, c10_counts_agree fsDemo galleryPath (by decide)⟩

end MkReports

/-! ## C6, C7, C8 -/

namespace MkReports

/-- C6: caption loading never fails — an absent `captions.csv` yields the
empty table, a row whose stripped filename is empty is skipped, a missing
`caption` field is treated as the empty string, and an image name absent
from the table looks up as the empty caption. -/
theorem c6_captions_tolerant (fs : FS) (folder : FPath) (name : String)
    (header row : List String) (caps : List (String × String)) :
    (fs.csvs.find? (fun e => e.1 == captionsPath folder) = none →
        read_captions fs (captionsPath folder) = [])
  ∧ (pyStrip ((dictReaderGet header row ("filename")).getD ("")) = "" →
        readRow header caps row = caps)
  ∧ (dictReaderGet header row ("caption") = none ∧
        pyStrip ((dictReaderGet header row ("filename")).getD ("")) ≠ "" →
        readRow header caps row =
          dictInsert caps (pyStrip ((dictReaderGet header row ("filename")).getD ("")))
            (""))
  ∧ ((∀ kv ∈ read_captions fs (captionsPath folder), kv.1 ≠ name) →
        dictGet (read_captions fs (captionsPath folder)) name ("") = "") := by
  refine ⟨?_, ?_, ?_, ?_⟩
  · intro h
    unfold read_captions
    rw [h]
  · intro h
    unfold readRow
    simp [h]
  · rintro ⟨h1, h2⟩
    unfold readRow
    rw [h1]
    simp only [h2, ne_eq, not_false_iff, if_pos]
    rfl
  · intro h
    unfold dictGet
    have : (read_captions fs (captionsPath folder)).find? (fun e => e.1 == name) = none := by
      rw [List.find?_eq_none]
      intro kv hkv
      simpa using h kv hkv
    rw [this]

theorem c6_witness :
    read_captions fsDemo (captionsPath xPath) = []
  ∧ readRow [("filename" : String), ("caption" : String)] [] [(" " : String)] = []
  ∧ readRow [("filename" : String), ("caption" : String)] [] [("b.jpg" : String)] =
      dictInsert []
        (pyStrip ((dictReaderGet [("filename" : String), ("caption" : String)]
          [("b.jpg" : String)] ("filename")).getD (""))) ("")
  ∧ dictGet (read_captions fsDemo (captionsPath galleryPath)) ("zzz.png") ("") = "" := by
  refine ⟨?_, ?_, ?_, ?_⟩
  · exact (c6_captions_tolerant fsDemo xPath ("") [] [] []).1 (by decide)
  · exact (c6_captions_tolerant fsDemo xPath ("")
      [("filename" : String), ("caption" : String)] [(" " : String)] []).2.1 (by decide)
  · exact (c6_captions_tolerant fsDemo xPath ("")
      [("filename" : String), ("caption" : String)] [("b.jpg" : String)] []).2.2.1
      ⟨by decide, by decide⟩
  · exact (c6_captions_tolerant fsDemo galleryPath ("zzz.png") [] [] []).2.2.2 (by decide)

/-- C7: when `outputs` is missing, `main` aborts with the error message and
produces no writes; otherwise it succeeds with discovery, the report builds
(in discovery order), and both index pages. -/
theorem c7_missing_outputs_aborts (fs : FS) :
    (fs.existsB outputsPath = false →
        main fs = Except.error ("❌ outputs/ پیدا نشد"))
  ∧ (fs.existsB outputsPath = true →
        main fs = Except.ok (pipeline fs)
      ∧ (pipeline fs).reports =
          (find_report_folders fs outputsPath).filterMap
            (fun f => (build_report fs f).map
              (fun page => (f ++ [("report.html" : String)], page)))) := by
  constructor
  · intro h
    unfold main
    rw [h]
    rfl
  · intro h
    refine ⟨?_, rfl⟩
    unfold main
    rw [h]
    rfl

theorem c7_witness :
    fsAbsent.existsB outputsPath = false
  ∧ main fsAbsent = Except.error ("❌ outputs/ پیدا نشد")
  ∧ fsDemo.existsB outputsPath = true
  ∧ main fsDemo = Except.ok (pipeline fsDemo) := by
  refine ⟨by decide, ?_, by decide, ?_⟩
  · exact (c7_missing_outputs_aborts fsAbsent).1 (by decide)
  · exact ((c7_missing_outputs_aborts fsDemo).2 (by decide)).1

/-- C8: index entries are sorted case-insensitively by relative path for
every input list of report folders (hence regardless of traversal order),
and an empty folder list renders the single placeholder item in both
pages. -/
theorem c8_index_sorted_and_placeholder (fs : FS) (folders : List FPath) :
    (sortItems (folders.map (index_item fs outputsPath))).Pairwise itemLe
  ∧ (folders = [] →
        build_index_pages fs folders =
          (index_page_html noReportsLi, index_page_html noReportsLi)) := by
  constructor
  · haveI : IsTotal (String × String × Nat) itemLe := ⟨fun a b => strLe_total _ _⟩
    haveI : IsTrans (String × String × Nat) itemLe := ⟨fun _ _ _ => strLe_trans⟩
    exact List.sorted_insertionSort itemLe _
  · rintro rfl
    rfl

theorem c8_witness :
    (sortItems (([] : List FPath).map (index_item fsDemo outputsPath))).Pairwise itemLe
  ∧ build_index_pages fsDemo [] =
      (index_page_html noReportsLi, index_page_html noReportsLi) :=
  ⟨(c8_index_sorted_and_placeholder fsDemo []).1,
    (c8_index_sorted_and_placeholder fsDemo []).2 rfl⟩

end MkReports

/-! ## C2: what `quote` does to bytes -/

namespace MkReports

theorem utf8Char_lt_256 (c : Char) : ∀ b ∈ utf8Char c, b < 256 := by
  intro b hb
  have hv : c.toNat < 0x110000 := by
    show c.val.toNat < 0x110000
    rcases c.valid with h | ⟨_, h⟩ <;> omega
  simp only [utf8Char] at hb
  split_ifs at hb with h1 h2 h3
  · simp only [List.mem_singleton] at hb
    omega
  · simp only [List.mem_cons, List.mem_singleton, List.not_mem_nil, or_false] at hb
    rcases hb with rfl | rfl <;> omega
  · simp only [List.mem_cons, List.mem_singleton, List.not_mem_nil, or_false] at hb
    rcases hb with rfl | rfl | rfl <;> omega
  · simp only [List.mem_cons, List.mem_singleton, List.not_mem_nil, or_false] at hb
    rcases hb with rfl | rfl | rfl | rfl <;> omega

theorem utf8Char_mem47 (c : Char) : 47 ∈ utf8Char c ↔ c = '/' := by
  constructor
  · intro hb
    simp only [utf8Char] at hb
    split_ifs at hb with h1 h2 h3
    · simp only [List.mem_singleton] at hb
      exact char_toNat_inj hb.symm
    · simp only [List.mem_cons, List.mem_singleton, List.not_mem_nil, or_false] at hb
      rcases hb with h | h <;> omega
    · simp only [List.mem_cons, List.mem_singleton, List.not_mem_nil, or_false] at hb
      rcases hb with h | h | h <;> omega
    · simp only [List.mem_cons, List.mem_singleton, List.not_mem_nil, or_false] at hb
      rcases hb with h | h | h | h <;> omega
  · rintro rfl
    decide

theorem quoteByteChars_ok : ∀ b, b < 256 →
    ∀ c ∈ quoteByteChars b, (isSafeByte c.toNat || c == '%') = true := by decide

theorem quoteByteChars_slash : ∀ b, b < 256 → ('/' ∈ quoteByteChars b ↔ b = 47) := by decide

theorem quote_chars_ok (s : String) :
    ∀ c ∈ (quote s).data, (isSafeByte c.toNat || c == '%') = true := by
  intro c hc
  have hc' : c ∈ (utf8Str s).flatMap quoteByteChars := hc
  obtain ⟨b, hb, hcb⟩ := List.mem_flatMap.mp hc'
  have hb256 : b < 256 := by
    obtain ⟨ch, _, hbch⟩ := List.mem_flatMap.mp hb
    exact utf8Char_lt_256 ch b hbch
  exact quoteByteChars_ok b hb256 c hcb

theorem quote_slash_iff (s : String) : '/' ∈ (quote s).data ↔ '/' ∈ s.data := by
  constructor
  · intro h
    have h' : '/' ∈ (utf8Str s).flatMap quoteByteChars := h
    obtain ⟨b, hb, hcb⟩ := List.mem_flatMap.mp h'
    obtain ⟨ch, hch, hbch⟩ := List.mem_flatMap.mp hb
    have hb256 : b < 256 := utf8Char_lt_256 ch b hbch
    have : b = 47 := (quoteByteChars_slash b hb256).mp hcb
    subst this
    have : ch = '/' := (utf8Char_mem47 ch).mp hbch
    subst this
    exact hch
  · intro h
    show '/' ∈ (utf8Str s).flatMap quoteByteChars
    refine List.mem_flatMap.mpr ⟨47, ?_, by decide⟩
    exact List.mem_flatMap.mpr ⟨'/', h, by decide⟩

/-- C2 (counterexample): a literal `/` inside a single segment is not
percent-encoded — `quote` keeps it, so `url_path` on the one-segment list
`["a/b"]` returns `"a/b"` with the slash intact, not `"a%2Fb"`. -/
theorem c2_counterexample :
    url_path [("a/b" : String)] = "a/b" ∧ '/' ∈ (quote ("a/b")).data := by decide

/-- C2 (amended): `url_path` percent-encodes each segment independently and
joins with `/`, where encoding a segment leaves exactly the unreserved
characters and `/` intact (everything else becomes `%XX`); a literal `/`
inside a segment therefore survives unencoded, so `/` in the result comes
from the join separators and from literal slashes inside segments. -/
theorem c2_url_path_encoding (parts : List String) (s : String) :
    url_path parts = joinSlash (parts.map quote)
  ∧ (∀ c ∈ (quote s).data, (isSafeByte c.toNat || c == '%') = true)
  ∧ ('/' ∈ (quote s).data ↔ '/' ∈ s.data) :=
  ⟨rfl, quote_chars_ok s, quote_slash_iff s⟩

end MkReports

/-! ## C3: the report page never contains an unescaped script tag -/

namespace MkReports

theorem scan_append (st : ScanSt) (a b : List Char) :
    scan st (a ++ b) = scan (scan st a) b :=
  List.foldl_append ..

theorem scan_s3 (l : List Char) : scan .s3 l = .s3 := by
  induction l with
  | nil => rfl
  | cons c cs ih => exact ih

theorem scan_pat (st : ScanSt) (b : List Char) :
    scan st ('<' :: 's' :: 'c' :: b) = .s3 := by
  cases st <;> exact scan_s3 b

theorem occursIn_scan {l : List Char} (h : occursIn ("<sc".data) l) :
    scan .s0 l = .s3 := by
  obtain ⟨a, b, rfl⟩ := h
  rw [show (("<sc".data : List Char)) = ['<', 's', 'c'] from rfl]
  rw [List.append_assoc, scan_append]
  exact scan_pat _ b

theorem occursIn_of_script {l : List Char} (h : occursIn ("<script>".data) l) :
    occursIn ("<sc".data) l := by
  obtain ⟨a, b, rfl⟩ := h
  refine ⟨a, ("ript>".data ++ b), ?_⟩
  rw [show (("<script>".data : List Char)) = "<sc".data ++ "ript>".data from rfl]
  simp [List.append_assoc]

theorem no_lt_of_not_mem {l : List Char} (h : '<' ∉ l) : ∀ c ∈ l, c ≠ '<' :=
  fun c hc he => h (he ▸ hc)

theorem scan_no_lt {l : List Char} (h : ∀ c ∈ l, c ≠ '<') : scan .s0 l = .s0 := by
  induction l with
  | nil => rfl
  | cons c cs ih =>
    have hc : scanStep .s0 c = .s0 := by
      have := h c (List.mem_cons_self c cs)
      simp [scanStep, this]
    show scan (scanStep .s0 c) cs = .s0
    rw [hc]
    exact ih (fun x hx => h x (List.mem_cons_of_mem c hx))

theorem escapeChar_no_bad (ch : Char) : '<' ∉ escapeChar ch ∧ '"' ∉ escapeChar ch := by
  unfold escapeChar
  split_ifs with h1 h2 h3 h4 h5
  · decide
  · decide
  · decide
  · decide
  · decide
  · refine ⟨fun hm => ?_, fun hm => ?_⟩
    · simp only [List.mem_singleton] at hm
      exact h2 hm.symm
    · simp only [List.mem_singleton] at hm
      exact h4 hm.symm

theorem htmlEscape_no_lt (s : String) : '<' ∉ (htmlEscape s).data := by
  intro h
  have h' : '<' ∈ s.data.flatMap escapeChar := h
  obtain ⟨ch, _, hc⟩ := List.mem_flatMap.mp h'
  exact (escapeChar_no_bad ch).1 hc

theorem htmlEscape_no_quot (s : String) : '"' ∉ (htmlEscape s).data := by
  intro h
  have h' : '"' ∈ s.data.flatMap escapeChar := h
  obtain ⟨ch, _, hc⟩ := List.mem_flatMap.mp h'
  exact (escapeChar_no_bad ch).2 hc

theorem quote_no_lt (s : String) : '<' ∉ (quote s).data :=
  fun h => absurd (quote_chars_ok s _ h) (by decide)

theorem quote_no_space (s : String) : ' ' ∉ (quote s).data :=
  fun h => absurd (quote_chars_ok s _ h) (by decide)

theorem quote_no_amp (s : String) : '&' ∉ (quote s).data :=
  fun h => absurd (quote_chars_ok s _ h) (by decide)

theorem quote_no_quot (s : String) : '"' ∉ (quote s).data :=
  fun h => absurd (quote_chars_ok s _ h) (by decide)

theorem digitChar_ne_lt (m : Nat) : Nat.digitChar m ≠ '<' := by
  by_cases h : m < 16
  · have hall : ∀ k, k < 16 → Nat.digitChar k ≠ '<' := by decide
    exact hall m h
  · have h0 : ¬m = 0 := by omega
    have h1 : ¬m = 1 := by omega
    have h2 : ¬m = 2 := by omega
    have h3 : ¬m = 3 := by omega
    have h4 : ¬m = 4 := by omega
    have h5 : ¬m = 5 := by omega
    have h6 : ¬m = 6 := by omega
    have h7 : ¬m = 7 := by omega
    have h8 : ¬m = 8 := by omega
    have h9 : ¬m = 9 := by omega
    have h10 : ¬m = 10 := by omega
    have h11 : ¬m = 11 := by omega
    have h12 : ¬m = 12 := by omega
    have h13 : ¬m = 13 := by omega
    have h14 : ¬m = 14 := by omega
    have h15 : ¬m = 15 := by omega
    simp [Nat.digitChar, h0, h1, h2, h3, h4, h5, h6, h7, h8, h9, h10, h11, h12, h13,
      h14, h15]

theorem toDigitsCore_ne_lt (b fuel n : Nat) (ds : List Char) (h : ∀ c ∈ ds, c ≠ '<') :
    ∀ c ∈ Nat.toDigitsCore b fuel n ds, c ≠ '<' := by
  induction fuel generalizing n ds with
  | zero => simpa [Nat.toDigitsCore] using h
  | succ fuel ih =>
    simp only [Nat.toDigitsCore]
    split
    · intro c hc
      rcases List.mem_cons.mp hc with rfl | hc
      · exact digitChar_ne_lt _
      · exact h c hc
    · apply ih
      intro c hc
      rcases List.mem_cons.mp hc with rfl | hc
      · exact digitChar_ne_lt _
      · exact h c hc

theorem repr_ne_lt (n : Nat) : ∀ c ∈ (Nat.repr n).data, c ≠ '<' := by
  have h2 : (Nat.repr n).data = Nat.toDigits 10 n := rfl
  rw [h2]
  exact toDigitsCore_ne_lt 10 (n + 1) n [] (by simp)

theorem scan_cardT1 : scan .s0 cardT1.data = .s0 := by decide

theorem scan_cardT2 : scan .s0 cardT2.data = .s0 := by decide

theorem scan_cardT3 : scan .s0 cardT3.data = .s0 := by decide

theorem scan_cardT4 : scan .s0 cardT4.data = .s0 := by decide

theorem scan_cardT5 : scan .s0 cardT5.data = .s0 := by decide

theorem scan_pageT1 : scan .s0 pageT1.data = .s0 := by decide

theorem scan_pageT2 : scan .s0 pageT2.data = .s0 := by decide

theorem scan_pageT3 : scan .s0 pageT3.data = .s0 := by decide

theorem scan_pageT4 : scan .s0 pageT4.data = .s0 := by decide

theorem scan_pageT5 : scan .s0 pageT5.data = .s0 := by decide

theorem scan_card (name cap : String) : scan .s0 (card_html name cap).data = .s0 := by
  have hq : scan ScanSt.s0 (url_path [name]).data = ScanSt.s0 :=
    scan_no_lt (no_lt_of_not_mem (quote_no_lt name))
  have hn : scan ScanSt.s0 (htmlEscape name).data = ScanSt.s0 :=
    scan_no_lt (no_lt_of_not_mem (htmlEscape_no_lt name))
  have hcp : scan ScanSt.s0 (htmlEscape cap).data = ScanSt.s0 :=
    scan_no_lt (no_lt_of_not_mem (htmlEscape_no_lt cap))
  unfold card_html
  simp only [String.data_append]
  rw [scan_append, scan_append, scan_append, scan_append, scan_append, scan_append,
    scan_append, scan_append, scan_cardT1, hq, scan_cardT2, hq, scan_cardT3, hn,
    scan_cardT4, hcp]
  exact scan_cardT5

theorem scan_concatAll {cards : List String}
    (h : ∀ s ∈ cards, scan .s0 s.data = .s0) :
    scan .s0 (concatAll cards).data = .s0 := by
  induction cards with
  | nil => rfl
  | cons s rest ih =>
    show scan .s0 (s ++ concatAll rest).data = .s0
    rw [String.data_append, scan_append, h s (List.mem_cons_self s rest)]
    exact ih (fun x hx => h x (List.mem_cons_of_mem s hx))

theorem scan_report_page (title : String) (count : Nat) (cards : List String)
    (hc : ∀ s ∈ cards, scan .s0 s.data = .s0) :
    scan .s0 (report_page_html title count cards).data = .s0 := by
  have ht : scan ScanSt.s0 (htmlEscape title).data = ScanSt.s0 :=
    scan_no_lt (no_lt_of_not_mem (htmlEscape_no_lt title))
  have hr : scan ScanSt.s0 (Nat.repr count).data = ScanSt.s0 :=
    scan_no_lt (repr_ne_lt count)
  have hcc : scan ScanSt.s0 (concatAll cards).data = ScanSt.s0 := scan_concatAll hc
  unfold report_page_html
  simp only [String.data_append]
  rw [scan_append, scan_append, scan_append, scan_append, scan_append, scan_append,
    scan_append, scan_append, scan_pageT1, ht, scan_pageT2, ht, scan_pageT3, hr,
    scan_pageT4, hcc]
  exact scan_pageT5

/-- C3: a generated report page never contains the text `<script>` (in
particular no caption or file name reaches it unescaped); image labels are
entity-escaped, so they carry no raw `<` or `"`; link targets are
percent-encoded, so they carry no raw space, `&` or `"`. -/
theorem c3_report_never_unescaped (fs : FS) (folder : FPath) (page : String)
    (h : build_report fs folder = some page) :
    ¬occursIn ("<script>".data) page.data
  ∧ (∀ s : String, '<' ∉ (htmlEscape s).data ∧ '"' ∉ (htmlEscape s).data)
  ∧ (∀ s : String, ' ' ∉ (quote s).data ∧ '&' ∉ (quote s).data ∧ '"' ∉ (quote s).data) := by
  refine ⟨?_, fun s => ⟨htmlEscape_no_lt s, htmlEscape_no_quot s⟩,
    fun s => ⟨quote_no_space s, quote_no_amp s, quote_no_quot s⟩⟩
  unfold build_report at h
  split_ifs at h with he
  have hp := Option.some.inj h
  intro hocc
  have h3 : scan .s0 page.data = .s3 := occursIn_scan (occursIn_of_script hocc)
  have h0 : scan .s0 page.data = .s0 := by
    rw [← hp]
    apply scan_report_page
    intro s hs
    unfold report_cards at hs
    obtain ⟨img, _, rfl⟩ := List.mem_map.mp hs
    exact scan_card _ _
  rw [h0] at h3
  exact absurd h3 (by decide)

theorem c3_witness :
    build_report fsDemo galleryPath =
      some (report_page_html (pathName galleryPath)
        ((list_images fsDemo galleryPath).length) (report_cards fsDemo galleryPath))
  ∧ ¬occursIn ("<script>".data)
      (report_page_html (pathName galleryPath)
        ((list_images fsDemo galleryPath).length) (report_cards fsDemo galleryPath)).data := by
  have hb : build_report fsDemo galleryPath =
      some (report_page_html (pathName galleryPath)
        ((list_images fsDemo galleryPath).length) (report_cards fsDemo galleryPath)) := by
    unfold build_report
    rw [if_neg]
    exact (by decide : ¬(list_images fsDemo galleryPath).isEmpty = true)
  exact ⟨hb, (c3_report_never_unescaped fsDemo galleryPath _ hb).1⟩

end MkReports

/-! ## C9 part one: runs do not depend on the OS enumeration order -/

namespace MkReports

theorem contains_eq_true {α : Type} [BEq α] [LawfulBEq α] {l : List α} {a : α}
    (h : a ∈ l) : l.contains a = true :=
  (contains_iff _ _).mpr h

theorem contains_eq_false {α : Type} [BEq α] [LawfulBEq α] {l : List α} {a : α}
    (h : a ∉ l) : l.contains a = false := by
  cases hh : l.contains a
  · rfl
  · exact absurd ((contains_iff _ _).mp hh) h

theorem contains_perm {α : Type} [BEq α] [LawfulBEq α] {l₁ l₂ : List α}
    (h : l₁.Perm l₂) (a : α) : l₁.contains a = l₂.contains a := by
  by_cases hm : a ∈ l₁
  · rw [contains_eq_true hm, contains_eq_true (h.mem_iff.mp hm)]
  · rw [contains_eq_false hm, contains_eq_false (fun hx => hm (h.mem_iff.mpr hx))]

theorem entries_perm {fs gs : FS} (hf : fs.files.Perm gs.files)
    (hd : fs.dirs.Perm gs.dirs) : fs.entries.Perm gs.entries :=
  hf.append hd

theorem list_images_congr {fs gs : FS} (hwf : FS.WF fs)
    (hf : fs.files.Perm gs.files) (hd : fs.dirs.Perm gs.dirs) (d : FPath) :
    list_images fs d = list_images gs d := by
  unfold list_images iterdir
  have hstep : (gs.entries.filter
        (fun p => leadsToB d p && p.length == d.length + 1)).filter
        (fun p => gs.isFileB p && IMG_EXTS.contains (pyLower (pySuffix (pathName p)))) =
      (gs.entries.filter (fun p => leadsToB d p && p.length == d.length + 1)).filter
        (fun p => fs.isFileB p && IMG_EXTS.contains (pyLower (pySuffix (pathName p)))) := by
    apply List.filter_congr
    intro p _
    unfold FS.isFileB
    rw [contains_perm hf p]
  rw [hstep]
  apply sortPaths_eq_of_perm
  · exact ((entries_perm hf hd).filter _).filter _
  · intro p hp
    exact hwf.1 p (List.mem_of_mem_filter (List.mem_of_mem_filter hp))

theorem find_report_folders_congr {fs gs : FS} (hwf : FS.WF fs)
    (hf : fs.files.Perm gs.files) (hd : fs.dirs.Perm gs.dirs) :
    find_report_folders fs outputsPath = find_report_folders gs outputsPath := by
  unfold find_report_folders rglob
  have h1 : sortPaths (fs.entries.filter
        (fun p => leadsToB outputsPath p && decide (outputsPath.length < p.length))) =
      sortPaths (gs.entries.filter
        (fun p => leadsToB outputsPath p && decide (outputsPath.length < p.length))) := by
    apply sortPaths_eq_of_perm
    · exact (entries_perm hf hd).filter _
    · intro p hp
      exact hwf.1 p (List.mem_of_mem_filter hp)
  rw [← h1]
  apply List.filter_congr
  intro d _
  unfold FS.isDirB
  rw [contains_perm hd d, list_images_congr hwf hf hd d]

theorem read_captions_congr {fs gs : FS}
    (hc : ∀ p, fs.csvs.find? (fun e => e.1 == p) = gs.csvs.find? (fun e => e.1 == p))
    (p : FPath) : read_captions fs p = read_captions gs p := by
  unfold read_captions
  rw [hc p]

theorem build_report_congr {fs gs : FS} (hwf : FS.WF fs)
    (hf : fs.files.Perm gs.files) (hd : fs.dirs.Perm gs.dirs)
    (hc : ∀ p, fs.csvs.find? (fun e => e.1 == p) = gs.csvs.find? (fun e => e.1 == p))
    (folder : FPath) : build_report fs folder = build_report gs folder := by
  unfold build_report report_cards
  rw [list_images_congr hwf hf hd folder, read_captions_congr hc]

theorem index_item_congr {fs gs : FS} (hwf : FS.WF fs)
    (hf : fs.files.Perm gs.files) (hd : fs.dirs.Perm gs.dirs) :
    index_item fs outputsPath = index_item gs outputsPath := by
  funext folder
  unfold index_item
  rw [list_images_congr hwf hf hd folder]

theorem pipeline_congr {fs gs : FS} (hwf : FS.WF fs)
    (hf : fs.files.Perm gs.files) (hd : fs.dirs.Perm gs.dirs)
    (hc : ∀ p, fs.csvs.find? (fun e => e.1 == p) = gs.csvs.find? (fun e => e.1 == p)) :
    pipeline fs = pipeline gs := by
  unfold pipeline build_index_pages
  rw [find_report_folders_congr hwf hf hd, index_item_congr hwf hf hd,
    funext (fun f => build_report_congr hwf hf hd hc f)]

theorem main_congr {fs gs : FS} (hwf : FS.WF fs)
    (hf : fs.files.Perm gs.files) (hd : fs.dirs.Perm gs.dirs)
    (hc : ∀ p, fs.csvs.find? (fun e => e.1 == p) = gs.csvs.find? (fun e => e.1 == p)) :
    main fs = main gs := by
  unfold main FS.existsB FS.isFileB FS.isDirB
  rw [contains_perm hf, contains_perm hd, pipeline_congr hwf hf hd hc]

end MkReports

/-! ## C9 part two: adding the written files changes no computation -/

namespace MkReports

theorem list_images_add (fs : FS) (cs : List (FPath × Csv)) (ef ed : List FPath)
    (hdisj : ∀ p ∈ fs.files, p ∉ fs.dirs)
    (hext : ∀ p ∈ ef, IMG_EXTS.contains (pyLower (pySuffix (pathName p))) = false)
    (hefd : ∀ p ∈ ef, p ∉ fs.dirs)
    (hedf : ∀ p ∈ ed, p ∉ fs.files ∧ p ∉ ef)
    (d : FPath) :
    list_images { dirs := fs.dirs ++ ed, files := fs.files ++ ef, csvs := cs } d =
      list_images fs d := by
  unfold list_images iterdir FS.entries
  congr 1
  show List.filter _ (List.filter _ ((fs.files ++ ef) ++ (fs.dirs ++ ed))) =
    List.filter _ (List.filter _ (fs.files ++ fs.dirs))
  simp only [List.filter_append]
  have hB : List.filter
      (fun p => (FS.mk (fs.dirs ++ ed) (fs.files ++ ef) cs).isFileB p &&
        IMG_EXTS.contains (pyLower (pySuffix (pathName p))))
      (List.filter (fun p => leadsToB d p && p.length == d.length + 1) ef) = [] := by
    apply List.filter_eq_nil_iff.mpr
    intro p hp
    have hpe : p ∈ ef := List.mem_of_mem_filter hp
    intro hcon
    rw [Bool.and_eq_true] at hcon
    rw [hext p hpe] at hcon
    exact absurd hcon.2 Bool.false_ne_true
  have hC : List.filter
      (fun p => (FS.mk (fs.dirs ++ ed) (fs.files ++ ef) cs).isFileB p &&
        IMG_EXTS.contains (pyLower (pySuffix (pathName p))))
      (List.filter (fun p => leadsToB d p && p.length == d.length + 1) fs.dirs) = [] := by
    apply List.filter_eq_nil_iff.mpr
    intro p hp
    have hpd : p ∈ fs.dirs := List.mem_of_mem_filter hp
    have hnf : p ∉ fs.files := fun hf => hdisj p hf hpd
    have hne : p ∉ ef := fun he => hefd p he hpd
    intro hcon
    rw [Bool.and_eq_true] at hcon
    have : (FS.mk (fs.dirs ++ ed) (fs.files ++ ef) cs).isFileB p = false := by
      unfold FS.isFileB
      exact contains_eq_false (fun hm => (List.mem_append.mp hm).elim hnf hne)
    rw [this] at hcon
    exact absurd hcon.1 Bool.false_ne_true
  have hCr : List.filter
      (fun p => fs.isFileB p && IMG_EXTS.contains (pyLower (pySuffix (pathName p))))
      (List.filter (fun p => leadsToB d p && p.length == d.length + 1) fs.dirs) = [] := by
    apply List.filter_eq_nil_iff.mpr
    intro p hp
    have hpd : p ∈ fs.dirs := List.mem_of_mem_filter hp
    have hnf : p ∉ fs.files := fun hf => hdisj p hf hpd
    intro hcon
    rw [Bool.and_eq_true] at hcon
    have : fs.isFileB p = false := contains_eq_false hnf
    rw [this] at hcon
    exact absurd hcon.1 Bool.false_ne_true
  have hD : List.filter
      (fun p => (FS.mk (fs.dirs ++ ed) (fs.files ++ ef) cs).isFileB p &&
        IMG_EXTS.contains (pyLower (pySuffix (pathName p))))
      (List.filter (fun p => leadsToB d p && p.length == d.length + 1) ed) = [] := by
    apply List.filter_eq_nil_iff.mpr
    intro p hp
    have hpd : p ∈ ed := List.mem_of_mem_filter hp
    intro hcon
    rw [Bool.and_eq_true] at hcon
    have : (FS.mk (fs.dirs ++ ed) (fs.files ++ ef) cs).isFileB p = false := by
      unfold FS.isFileB
      exact contains_eq_false
        (fun hm => (List.mem_append.mp hm).elim (hedf p hpd).1 (hedf p hpd).2)
    rw [this] at hcon
    exact absurd hcon.1 Bool.false_ne_true
  have hA : List.filter
      (fun p => (FS.mk (fs.dirs ++ ed) (fs.files ++ ef) cs).isFileB p &&
        IMG_EXTS.contains (pyLower (pySuffix (pathName p))))
      (List.filter (fun p => leadsToB d p && p.length == d.length + 1) fs.files) =
    List.filter
      (fun p => fs.isFileB p && IMG_EXTS.contains (pyLower (pySuffix (pathName p))))
      (List.filter (fun p => leadsToB d p && p.length == d.length + 1) fs.files) := by
    apply List.filter_congr
    intro p hp
    have hpf : p ∈ fs.files := List.mem_of_mem_filter hp
    have h1 : (FS.mk (fs.dirs ++ ed) (fs.files ++ ef) cs).isFileB p = true := by
      unfold FS.isFileB
      exact contains_eq_true (List.mem_append_left _ hpf)
    have h2 : fs.isFileB p = true := contains_eq_true hpf
    rw [h1, h2]
  rw [hB, hC, hCr, hD, hA]
  simp

end MkReports

namespace MkReports

theorem find_report_folders_add (fs : FS) (cs : List (FPath × Csv)) (ef ed : List FPath)
    (hwf : FS.WF fs)
    (hsegf : ∀ p ∈ ef, SegsOk p) (hsegd : ∀ p ∈ ed, SegsOk p)
    (hext : ∀ p ∈ ef, IMG_EXTS.contains (pyLower (pySuffix (pathName p))) = false)
    (hefd : ∀ p ∈ ef, p ∉ fs.dirs ∧ p ∉ ed)
    (hedf : ∀ p ∈ ed, p ∉ fs.files ∧ p ∉ ef)
    (hedout : ∀ p ∈ ed, leadsToB outputsPath p = false) :
    find_report_folders { dirs := fs.dirs ++ ed, files := fs.files ++ ef, csvs := cs }
      outputsPath = find_report_folders fs outputsPath := by
  have hsegs : ∀ p ∈ rglob (FS.mk (fs.dirs ++ ed) (fs.files ++ ef) cs) outputsPath,
      SegsOk p := by
    intro p hp
    have hpe : p ∈ (fs.files ++ ef) ++ (fs.dirs ++ ed) := List.mem_of_mem_filter hp
    rcases List.mem_append.mp hpe with h1 | h1
    · rcases List.mem_append.mp h1 with h2 | h2
      · exact hwf.1 p (List.mem_append_left _ h2)
      · exact hsegf p h2
    · rcases List.mem_append.mp h1 with h2 | h2
      · exact hwf.1 p (List.mem_append_right _ h2)
      · exact hsegd p h2
  have hsegs0 : ∀ p ∈ rglob fs outputsPath, SegsOk p := by
    intro p hp
    exact hwf.1 p (List.mem_of_mem_filter hp)
  unfold find_report_folders
  rw [filter_sortPaths _ _ hsegs, filter_sortPaths _ _ hsegs0]
  congr 1
  unfold rglob FS.entries
  show List.filter _ (List.filter _ ((fs.files ++ ef) ++ (fs.dirs ++ ed))) =
    List.filter _ (List.filter _ (fs.files ++ fs.dirs))
  simp only [List.filter_append]
  have hA : List.filter
      (fun d => (FS.mk (fs.dirs ++ ed) (fs.files ++ ef) cs).isDirB d &&
        !(list_images (FS.mk (fs.dirs ++ ed) (fs.files ++ ef) cs) d).isEmpty)
      (List.filter
        (fun p => leadsToB outputsPath p && decide (outputsPath.length < p.length))
        fs.files) = [] := by
    apply List.filter_eq_nil_iff.mpr
    intro p hp
    have hpf : p ∈ fs.files := List.mem_of_mem_filter hp
    intro hcon
    rw [Bool.and_eq_true] at hcon
    have : (FS.mk (fs.dirs ++ ed) (fs.files ++ ef) cs).isDirB p = false := by
      unfold FS.isDirB
      refine contains_eq_false (fun hm => ?_)
      rcases List.mem_append.mp hm with h2 | h2
      · exact hwf.2 p hpf h2
      · exact (hedf p h2).1 hpf
    rw [this] at hcon
    exact absurd hcon.1 Bool.false_ne_true
  have hAr : List.filter (fun d => fs.isDirB d && !(list_images fs d).isEmpty)
      (List.filter
        (fun p => leadsToB outputsPath p && decide (outputsPath.length < p.length))
        fs.files) = [] := by
    apply List.filter_eq_nil_iff.mpr
    intro p hp
    have hpf : p ∈ fs.files := List.mem_of_mem_filter hp
    intro hcon
    rw [Bool.and_eq_true] at hcon
    have : fs.isDirB p = false := contains_eq_false (fun hm => hwf.2 p hpf hm)
    rw [this] at hcon
    exact absurd hcon.1 Bool.false_ne_true
  have hB : List.filter
      (fun d => (FS.mk (fs.dirs ++ ed) (fs.files ++ ef) cs).isDirB d &&
        !(list_images (FS.mk (fs.dirs ++ ed) (fs.files ++ ef) cs) d).isEmpty)
      (List.filter
        (fun p => leadsToB outputsPath p && decide (outputsPath.length < p.length))
        ef) = [] := by
    apply List.filter_eq_nil_iff.mpr
    intro p hp
    have hpe : p ∈ ef := List.mem_of_mem_filter hp
    intro hcon
    rw [Bool.and_eq_true] at hcon
    have : (FS.mk (fs.dirs ++ ed) (fs.files ++ ef) cs).isDirB p = false := by
      unfold FS.isDirB
      refine contains_eq_false (fun hm => ?_)
      rcases List.mem_append.mp hm with h2 | h2
      · exact (hefd p hpe).1 h2
      · exact (hefd p hpe).2 h2
    rw [this] at hcon
    exact absurd hcon.1 Bool.false_ne_true
  have hD : List.filter
      (fun p => leadsToB outputsPath p && decide (outputsPath.length < p.length)) ed =
      [] := by
    apply List.filter_eq_nil_iff.mpr
    intro p hp
    intro hcon
    rw [Bool.and_eq_true] at hcon
    rw [hedout p hp] at hcon
    exact absurd hcon.1 Bool.false_ne_true
  have hC : List.filter
      (fun d => (FS.mk (fs.dirs ++ ed) (fs.files ++ ef) cs).isDirB d &&
        !(list_images (FS.mk (fs.dirs ++ ed) (fs.files ++ ef) cs) d).isEmpty)
      (List.filter
        (fun p => leadsToB outputsPath p && decide (outputsPath.length < p.length))
        fs.dirs) =
    List.filter (fun d => fs.isDirB d && !(list_images fs d).isEmpty)
      (List.filter
        (fun p => leadsToB outputsPath p && decide (outputsPath.length < p.length))
        fs.dirs) := by
    apply List.filter_congr
    intro p hp
    have hpd : p ∈ fs.dirs := List.mem_of_mem_filter hp
    have h1 : (FS.mk (fs.dirs ++ ed) (fs.files ++ ef) cs).isDirB p = true := by
      unfold FS.isDirB
      exact contains_eq_true (List.mem_append_left _ hpd)
    have h2 : fs.isDirB p = true := contains_eq_true hpd
    rw [h1, h2, list_images_add fs cs ef ed hwf.2 hext (fun q hq => (hefd q hq).1) hedf]
  rw [hA, hAr, hB, hD, hC]
  simp

end MkReports

namespace MkReports

theorem build_report_add (fs : FS) (ef ed : List FPath)
    (hdisj : ∀ p ∈ fs.files, p ∉ fs.dirs)
    (hext : ∀ p ∈ ef, IMG_EXTS.contains (pyLower (pySuffix (pathName p))) = false)
    (hefd : ∀ p ∈ ef, p ∉ fs.dirs)
    (hedf : ∀ p ∈ ed, p ∉ fs.files ∧ p ∉ ef)
    (folder : FPath) :
    build_report { dirs := fs.dirs ++ ed, files := fs.files ++ ef, csvs := fs.csvs }
      folder = build_report fs folder := by
  unfold build_report report_cards
  rw [list_images_add fs fs.csvs ef ed hdisj hext hefd hedf folder]
  rfl

theorem index_item_add (fs : FS) (ef ed : List FPath)
    (hdisj : ∀ p ∈ fs.files, p ∉ fs.dirs)
    (hext : ∀ p ∈ ef, IMG_EXTS.contains (pyLower (pySuffix (pathName p))) = false)
    (hefd : ∀ p ∈ ef, p ∉ fs.dirs)
    (hedf : ∀ p ∈ ed, p ∉ fs.files ∧ p ∉ ef) :
    index_item { dirs := fs.dirs ++ ed, files := fs.files ++ ef, csvs := fs.csvs }
      outputsPath = index_item fs outputsPath := by
  funext folder
  unfold index_item
  rw [list_images_add fs fs.csvs ef ed hdisj hext hefd hedf folder]

theorem pipeline_add (fs : FS) (ef ed : List FPath)
    (hwf : FS.WF fs)
    (hsegf : ∀ p ∈ ef, SegsOk p) (hsegd : ∀ p ∈ ed, SegsOk p)
    (hext : ∀ p ∈ ef, IMG_EXTS.contains (pyLower (pySuffix (pathName p))) = false)
    (hefd : ∀ p ∈ ef, p ∉ fs.dirs ∧ p ∉ ed)
    (hedf : ∀ p ∈ ed, p ∉ fs.files ∧ p ∉ ef)
    (hedout : ∀ p ∈ ed, leadsToB outputsPath p = false) :
    pipeline { dirs := fs.dirs ++ ed, files := fs.files ++ ef, csvs := fs.csvs } =
      pipeline fs := by
  unfold pipeline build_index_pages
  rw [find_report_folders_add fs fs.csvs ef ed hwf hsegf hsegd hext hefd hedf hedout,
    index_item_add fs ef ed hwf.2 hext (fun q hq => (hefd q hq).1) hedf,
    funext (fun f => build_report_add fs ef ed hwf.2 hext
      (fun q hq => (hefd q hq).1) hedf f)]

theorem existsB_add (fs : FS) (cs : List (FPath × Csv)) (ef ed : List FPath) (q : FPath)
    (h : fs.existsB q = true) :
    (FS.mk (fs.dirs ++ ed) (fs.files ++ ef) cs).existsB q = true := by
  unfold FS.existsB FS.isFileB FS.isDirB at h ⊢
  rw [Bool.or_eq_true] at h ⊢
  rcases h with h1 | h1
  · exact Or.inl (contains_eq_true (List.mem_append_left _ ((contains_iff _ _).mp h1)))
  · exact Or.inr (contains_eq_true (List.mem_append_left _ ((contains_iff _ _).mp h1)))

theorem main_applyRun (fs : FS) (hwf : FS.WF fs) (hfresh : WritesFresh fs) :
    main (applyRun fs) = main fs := by
  unfold applyRun
  cases hm : main fs with
  | error e =>
    exact hm
  | ok r =>
    have hex : fs.existsB outputsPath = true := by
      cases hx : fs.existsB outputsPath
      · unfold main at hm
        rw [hx] at hm
        exact absurd hm (by simp)
      · rfl
    have hr : r = pipeline fs := by
      unfold main at hm
      rw [hex] at hm
      simp only [if_true] at hm
      exact (Except.ok.inj hm).symm
    subst hr
    set ef := ((pipeline fs).reports.map (fun e => e.1) ++
      [[("site" : String), ("index.html" : String)], [("index.html" : String)]]).filter
        (fun p => !fs.files.contains p) with hef_def
    set ed := (if fs.dirs.contains ([("site" : String)] : FPath) then ([] : List FPath)
      else [[("site" : String)]]) with hed_def
    have hedmem : ∀ p ∈ ed, p = [("site" : String)] := by
      intro p hp
      rw [hed_def] at hp
      split at hp
      · exact absurd hp (by simp)
      · simpa using hp
    have hreport : ∀ p ∈ (pipeline fs).reports.map (fun e => e.1),
        ∃ f, f ∈ find_report_folders fs outputsPath ∧
          p = f ++ [("report.html" : String)] := by
      intro p hp
      obtain ⟨pair, hpair, hfst⟩ := List.mem_map.mp hp
      have hrep_eq : (pipeline fs).reports = (find_report_folders fs outputsPath).filterMap
          (fun f => (build_report fs f).map
            (fun page => (f ++ [("report.html" : String)], page))) := rfl
      rw [hrep_eq] at hpair
      obtain ⟨f, hf, hGf⟩ := List.mem_filterMap.mp hpair
      cases hb : build_report fs f with
      | none =>
        rw [hb] at hGf
        exact absurd hGf (by simp)
      | some page =>
        rw [hb] at hGf
        simp only [Option.map_some'] at hGf
        refine ⟨f, hf, ?_⟩
        have hpair2 : pair = (f ++ [("report.html" : String)], page) :=
          (Option.some.inj hGf).symm
        rw [← hfst, hpair2]
    have hefcases : ∀ p ∈ ef,
        (∃ f, f ∈ find_report_folders fs outputsPath ∧
          p = f ++ [("report.html" : String)]) ∨
        p = [("site" : String), ("index.html" : String)] ∨
        p = [("index.html" : String)] := by
      intro p hp
      rw [hef_def] at hp
      have hp2 := List.mem_of_mem_filter hp
      rcases List.mem_append.mp hp2 with h1 | h1
      · exact Or.inl (hreport p h1)
      · rcases List.mem_cons.mp h1 with h2 | h2
        · exact Or.inr (Or.inl h2)
        · exact Or.inr (Or.inr (by simpa using h2))
    have hfmem : ∀ f ∈ find_report_folders fs outputsPath, f ∈ fs.dirs :=
      fun f hf => (mem_find_report_folders.mp hf).1
    have hsegf : ∀ p ∈ ef, SegsOk p := by
      intro p hp
      rcases hefcases p hp with ⟨f, hf, rfl⟩ | rfl | rfl
      · intro s hs
        rcases List.mem_append.mp hs with h2 | h2
        · exact hwf.1 f (List.mem_append_right _ (hfmem f hf)) s h2
        · have : s = ("report.html" : String) := by simpa using h2
          subst this
          exact (by decide : ("report.html" : String) ≠ "" ∧
            '/' ∉ ("report.html" : String).data)
      · intro s hs
        have hok : ∀ t ∈ ([("site" : String), ("index.html" : String)] : FPath),
            t ≠ "" ∧ '/' ∉ t.data := by decide
        exact hok s hs
      · intro s hs
        have hok : ∀ t ∈ ([("index.html" : String)] : FPath),
            t ≠ "" ∧ '/' ∉ t.data := by decide
        exact hok s hs
    have hsegd : ∀ p ∈ ed, SegsOk p := by
      intro p hp
      rw [hedmem p hp]
      intro s hs
      have hok : ∀ t ∈ ([("site" : String)] : FPath), t ≠ "" ∧ '/' ∉ t.data := by decide
      exact hok s hs
    have hext : ∀ p ∈ ef, IMG_EXTS.contains (pyLower (pySuffix (pathName p))) = false := by
      intro p hp
      rcases hefcases p hp with ⟨f, _, rfl⟩ | rfl | rfl
      · rw [pathName_append_singleton]
        decide
      · decide
      · decide
    have hnotsite : ∀ p ∈ ef, p ≠ [("site" : String)] := by
      intro p hp
      rcases hefcases p hp with ⟨f, _, rfl⟩ | rfl | rfl
      · intro hcon
        have := congrArg pathName hcon
        rw [pathName_append_singleton] at this
        exact absurd this (by decide)
      · decide
      · decide
    have hefd : ∀ p ∈ ef, p ∉ fs.dirs ∧ p ∉ ed := by
      intro p hp
      refine ⟨?_, fun hpe => hnotsite p hp (hedmem p hpe)⟩
      rcases hefcases p hp with ⟨f, hf, rfl⟩ | rfl | rfl
      · exact hfresh.1 f hf
      · exact hfresh.2.2.1
      · exact hfresh.2.2.2
    have hedf : ∀ p ∈ ed, p ∉ fs.files ∧ p ∉ ef := by
      intro p hp
      rw [hedmem p hp]
      exact ⟨hfresh.2.1, fun hin => hnotsite _ hin rfl⟩
    have hedout : ∀ p ∈ ed, leadsToB outputsPath p = false := by
      intro p hp
      rw [hedmem p hp]
      decide
    unfold main
    rw [if_pos (existsB_add fs fs.csvs ef ed outputsPath hex)]
    rw [pipeline_add fs ef ed hwf hsegf hsegd hext hefd hedf hedout]

end MkReports

namespace MkReports

/-- C9: the pipeline is deterministic and idempotent.  Determinism: on a
fixed input state the run is a pure function of the entry sets — two
snapshots whose directory listings are permutations of each other (and
whose file contents agree) produce byte-identical reports and index pages,
so OS enumeration order never shows.  Idempotence: re-running on the state
left behind by a successful run (reports and index pages written, `site`
created) produces exactly the same outputs again. -/
theorem c9_deterministic_idempotent (fs gs : FS)
    (hwf : FS.WF fs) (hfresh : WritesFresh fs)
    (hf : fs.files.Perm gs.files) (hd : fs.dirs.Perm gs.dirs)
    (hc : ∀ p, fs.csvs.find? (fun e => e.1 == p) = gs.csvs.find? (fun e => e.1 == p)) :
    main fs = main gs ∧ main (applyRun fs) = main fs :=
  ⟨main_congr hwf hf hd hc, main_applyRun fs hwf hfresh⟩

theorem c9_witness :
    FS.WF fsDemo ∧ WritesFresh fsDemo ∧
      fsDemo.files.Perm fsDemoShuffled.files ∧ fsDemo.dirs.Perm fsDemoShuffled.dirs ∧
      (main fsDemo = main fsDemoShuffled ∧ main (applyRun fsDemo) = main fsDemo) :=
  ⟨by unfold FS.WF SegsOk; decide, by unfold WritesFresh; decide, by decide, by decide,
    c9_deterministic_idempotent fsDemo fsDemoShuffled
      (by unfold FS.WF SegsOk; decide) (by unfold WritesFresh; decide)
      (by decide) (by decide) (fun p => rfl)⟩

end MkReports
